import Mathlib

/-!
Shallow embedding of the cast slideshow pipeline of this repository
(web/apps/cast/src/services/render.ts), together with theorems settling
the specified behaviour of its components: the playback scheduler
(imageURLGenerator), the collection diff fetcher
(getEncryptedCollectionFiles), the file decryptor (decryptEnteFile), the
eligibility filter (isFileEligible) and the content materializer
(renderableImageBlob / downloadFile).

External capabilities (HTTP transport, the crypto worker, MIME sniffing,
HEIC transcoding, live photo decoding, filename parsing) are modelled as
abstract parameters: the theorems hold for every behaviour of those
collaborators, which is exactly the contract of the source module.
-/

namespace Render

/-- Error value thrown while processing one item. It records the only two
facts the generator inspects about a caught exception, namely whether it is
an ApiError and its httpStatusCode (render.ts line 121), plus an identifier
so that theorems can speak about which error was rethrown. -/
structure GenError where
  isApiError : Bool
  httpStatusCode : Nat
  errId : Nat
deriving DecidableEq, Repr

/-- The test performed at render.ts line 121 on a caught error:
e instanceof ApiError && e.httpStatusCode == 401. -/
def GenError.is401 (e : GenError) : Bool :=
  e.isApiError && e.httpStatusCode == 401

/-- Outcome of handling one encrypted file within a pass, as observed by the
loop body of imageURLGenerator (render.ts lines 105-156): decryptEnteFile may
throw (line 106, outside the try block), the eligibility filter may reject
the decrypted file (line 108), and createRenderableURL (line 113, inside the
try block) may either return a URL or throw. The generator model is
quantified over every sequence of such outcomes, hence over every behaviour
of the network, the crypto worker and the codecs, and over every shuffle. -/
inductive ItemStep where
  | decryptFail (e : GenError)
  | ineligible
  | success (url : String)
  | failure (e : GenError)
deriving DecidableEq, Repr

/-- The mutable state of one run of imageURLGenerator that is threaded
across items and passes: consecutiveFailures (render.ts line 96) and the
FIFO previousURLs of vended object URLs (line 72). -/
structure GenState where
  consecutiveFailures : Nat
  previousURLs : List String
deriving DecidableEq, Repr

/-- State at generator entry: zero failures, empty FIFO (lines 72 and 96). -/
def initState : GenState := ⟨0, []⟩

/-- The playback window update of render.ts lines 143-146: if more than one
URL is outstanding, drop (revoke) the oldest one at the front of the FIFO,
then append the freshly vended URL at the back. -/
def pushURL (urls : List String) (url : String) : List String :=
  (if urls.length > 1 then urls.tail else urls) ++ [url]

/-- One iteration of the for-loop body of imageURLGenerator (render.ts lines
105-156), acting on the threaded state. Returns Except.error e when the
generator rethrows e (terminating the run), and otherwise the new state
together with the yielded URL, if any.
Branches, in source order:
  decryptFail: line 106 sits outside the try block, so the error propagates;
  ineligible: line 108, continue, state untouched;
  success: line 114 resets consecutiveFailures to 0, lines 143-146 update
    the FIFO, line 155 yields the URL;
  failure: line 117 increments the counter, line 119 rethrows when the
    counter equals 3, line 128 rethrows 401 ApiErrors, line 133 otherwise
    skips the item. -/
def processItem (st : GenState) (item : ItemStep) :
    Except GenError (GenState × Option String) :=
  match item with
  | .decryptFail e => .error e
  | .ineligible => .ok (st, none)
  | .success url =>
    .ok ({ consecutiveFailures := 0
           previousURLs := pushURL st.previousURLs url }, some url)
  | .failure e =>
    let failures := st.consecutiveFailures + 1
    if failures == 3 then .error e
    else if e.is401 then .error e
    else .ok ({ st with consecutiveFailures := failures }, none)

/-- Result of one pass (one iteration of the outer while-true loop over a
shuffled file list): either the pass completed, with the final state, the
final value of haveEligibleFiles (render.ts line 103/115) and the URLs
yielded during the pass in order, or the generator rethrew error e after
yielding the listed URLs. -/
inductive PassResult where
  | ok (st : GenState) (haveEligibleFiles : Bool) (yields : List String)
  | err (e : GenError) (yields : List String)
deriving DecidableEq, Repr

/-- The for-loop of render.ts lines 105-156 over the remaining items of a
pass, starting from state st with the given haveEligibleFiles flag. -/
def runPass (st : GenState) (haveEligibleFiles : Bool) :
    List ItemStep → PassResult
  | [] => .ok st haveEligibleFiles []
  | item :: rest =>
    match processItem st item with
    | .error e => .err e []
    | .ok (st2, none) => runPass st2 haveEligibleFiles rest
    | .ok (st2, some url) =>
      match runPass st2 true rest with
      | .ok st3 hE ys => .ok st3 hE (url :: ys)
      | .err e ys => .err e (url :: ys)

/-- Observable outcome of running the generator on a finite schedule of
passes (each pass being the shuffled item outcomes of one fetch):
done means the generator returned normally (render.ts line 159, the DONE
state), failed means it rethrew error e, and running means it consumed the
whole provided schedule and is still looping. The trace lists the URLs
yielded in each processed pass, in order. -/
inductive RunOutcome where
  | done (trace : List (List String))
  | failed (e : GenError) (trace : List (List String))
  | running (st : GenState) (trace : List (List String))
deriving DecidableEq, Repr

/-- The while-true loop of imageURLGenerator (render.ts lines 98-160): run a
pass with haveEligibleFiles reset to false (line 103); on a rethrow the run
fails; if the pass completed without any successful materialization the
generator returns (line 159); otherwise loop. -/
def runGen (st : GenState) : List (List ItemStep) → RunOutcome
  | [] => .running st []
  | items :: rest =>
    match runPass st false items with
    | .err e ys => .failed e [ys]
    | .ok st2 hE ys =>
      if hE then
        match runGen st2 rest with
        | .done tr => .done (ys :: tr)
        | .failed e tr => .failed e (ys :: tr)
        | .running s tr => .running s (ys :: tr)
      else .done [ys]

/-- The sequence of states reached after each non-throwing item of a pass:
every observable point of the pass.  Computed with processItem, the same
transition used by runPass. -/
def passStates (st : GenState) : List ItemStep → List GenState
  | [] => []
  | item :: rest =>
    match processItem st item with
    | .error _ => []
    | .ok (st2, _) => st2 :: passStates st2 rest

/-- The sequence of states reached during a whole run: every observable
point of the run, across passes, following runGen through the schedule. -/
def runStates (st : GenState) : List (List ItemStep) → List GenState
  | [] => []
  | items :: rest =>
    passStates st items ++
      match runPass st false items with
      | .err _ _ => []
      | .ok st2 hE _ => if hE then runStates st2 rest else []

/-- An item outcome that neither throws nor is counted as a failure:
a successful materialization or a file the eligibility filter rejects. -/
def isBenignItem : ItemStep → Bool
  | ItemStep.success _ => true
  | ItemStep.ineligible => true
  | _ => false

/-- An item outcome that materializes successfully. -/
def isSuccessItem : ItemStep → Bool
  | ItemStep.success _ => true
  | _ => false

/-- Number of milliseconds to keep a slide on screen (render.ts line 75). -/
def slideDuration : Int := 12000

/-- The pacing computation of render.ts lines 148-152: with elapsedTime the
difference between the current clock reading and lastYieldTime, the
generator awaits wait(slideDuration - elapsedTime) exactly when
0 < elapsedTime < slideDuration, and does not wait otherwise. -/
def waitDuration (elapsedTime : Int) : Int :=
  if 0 < elapsedTime ∧ elapsedTime < slideDuration then slideDuration - elapsedTime
  else 0

/-- The initial value of lastYieldTime (render.ts lines 83-88): the start
time of the run, regressed by slideDuration - 2500 milliseconds so that the
first slide appears within about 2.5 seconds. -/
def initialLastYieldTime (startTime : Int) : Int :=
  startTime - (slideDuration - 2500)

/-- One entry of a page of the cast diff, restricted to the fields that
getEncryptedCollectionFiles reads: the deletion flag and updationTime
(render.ts lines 185-189), plus an identifier standing for the rest of the
encrypted file record. -/
structure DiffEntry where
  isDeleted : Bool
  updationTime : Nat
  fileId : Nat
deriving DecidableEq, Repr

/-- One response of the cast/diff endpoint: resp.data.diff and
resp.data.hasMore (render.ts lines 184 and 190). -/
structure DiffPage where
  diff : List DiffEntry
  hasMore : Bool
deriving DecidableEq, Repr

/-- The cursor update of render.ts lines 186-189: fold of max over the
updationTime of every entry of the page, seeded with the current cursor. -/
def pageCursor (sinceTime : Nat) (page : DiffPage) : Nat :=
  page.diff.foldl (fun m f => max m f.updationTime) sinceTime

/-- The per-page filter of render.ts line 185: the entries of the page whose
deletion flag is unset. -/
def livePage (page : DiffPage) : List DiffEntry :=
  page.diff.filter (fun f => !f.isDeleted)

/-- The do-while loop of getEncryptedCollectionFiles (render.ts lines
175-190), applied to the sequence of pages the server returns: accumulate
the live entries of each page, advance the cursor with pageCursor, and
request another page exactly while resp.data.hasMore.  Returns the
accumulated files together with the trace of cursor values after each
processed page. -/
def fetchGo (sinceTime : Nat) : List DiffPage → List DiffEntry × List Nat
  | [] => ([], [])
  | page :: rest =>
    let files := livePage page
    let since2 := pageCursor sinceTime page
    if page.hasMore then
      let r := fetchGo since2 rest
      (files ++ r.1, since2 :: r.2)
    else (files, [since2])

/-- getEncryptedCollectionFiles (render.ts lines 169-192): the cursor starts
at 0 on each invocation (line 173) and the loop of fetchGo runs over the
pages returned by the server. -/
def getEncryptedCollectionFiles (pages : List DiffPage) : List DiffEntry :=
  (fetchGo 0 pages).1

/-- Number of pages the do-while loop of getEncryptedCollectionFiles
processes when the server returns the given sequence of pages: the first
page unconditionally, then one more page after every page whose hasMore
flag is set. -/
def pagesTaken : List DiffPage → Nat
  | [] => 0
  | page :: rest => 1 + (if page.hasMore then pagesTaken rest else 0)

/-- The file type enumeration FILE_TYPE imported by render.ts from the
media package (values IMAGE, VIDEO, LIVE_PHOTO, OTHERS). -/
inductive FILE_TYPE where
  | IMAGE
  | VIDEO
  | LIVE_PHOTO
  | OTHERS
deriving DecidableEq, Repr

/-- The decrypted core metadata of a file, restricted to the fields render.ts
reads: fileType (line 276), title (lines 253, 266, 300) and creationTime
(line 250). -/
structure FileMetadata where
  fileType : FILE_TYPE
  title : String
  creationTime : Int
deriving DecidableEq, Repr

/-- The decrypted payload of the public magic metadata, restricted to the
fields render.ts reads: editedTime (line 249), editedName (line 252) and the
dimensions w and h (lines 381-382).  Option models fields a given record may
leave undefined. -/
structure PubMagicMetadataData where
  editedTime : Option Int
  editedName : Option String
  w : Option Nat
  h : Option Nat
deriving DecidableEq, Repr

/-- The info field of a file record; render.ts reads info.fileSize
(line 260). -/
structure FileInfo where
  fileSize : Nat
deriving DecidableEq, Repr

/-- A content locator of a file record; render.ts reads the
decryptionHeader of file.file and file.thumbnail (lines 358-359). -/
structure FileLocation where
  decryptionHeader : String
deriving DecidableEq, Repr

/-- An encrypted blob together with its decryption header, as in the
metadata field of an encrypted file record (render.ts lines 216-217). -/
structure EncryptedBlob where
  encryptedData : String
  decryptionHeader : String
deriving DecidableEq, Repr

/-- An encrypted magic metadata wrapper: the data field may be absent
(render.ts checks magicMetadata?.data and pubMagicMetadata?.data at lines
222 and 232) and comes with a header. -/
structure EncryptedMagicMetadata where
  data : Option String
  header : String
deriving DecidableEq, Repr

/-- An encrypted file record as consumed by decryptEnteFile (render.ts lines
202-209): the encrypted file key and its nonce, the encrypted metadata
blobs, and the rest of the record (id, info, content locators), which is
copied through unchanged. -/
structure EncryptedEnteFile where
  id : Nat
  encryptedKey : String
  keyDecryptionNonce : String
  metadata : EncryptedBlob
  magicMetadata : Option EncryptedMagicMetadata
  pubMagicMetadata : Option EncryptedMagicMetadata
  info : FileInfo
  file : FileLocation
  thumbnail : FileLocation
deriving DecidableEq, Repr

/-- A decrypted file as assembled by decryptEnteFile (render.ts lines
242-248): the rest of the record, the decrypted file key, the decrypted
metadata and the decrypted magic metadata overlays. -/
structure EnteFile where
  id : Nat
  key : String
  metadata : FileMetadata
  magicMetadata : Option String
  pubMagicMetadata : Option PubMagicMetadataData
  info : FileInfo
  file : FileLocation
  thumbnail : FileLocation
deriving DecidableEq, Repr

/-- The crypto worker consumed by decryptEnteFile (render.ts lines 201,
210-239).  The source calls one untyped decryptMetadata for the three
metadata blobs; the shallow embedding gives each call site its result type.
The theorems below are quantified over every worker, so they hold for every
behaviour of the cryptography. -/
structure CryptoWorker where
  decryptB64 : String → String → String → String
  decryptFileMetadata : String → String → String → FileMetadata
  decryptMagicData : String → String → String → String
  decryptPubMagicData : String → String → String → PubMagicMetadataData

/-- The overlay application of render.ts lines 249-254: when the decrypted
public magic metadata is present and its editedTime passes the JavaScript
truthiness test at line 249 (a number is truthy exactly when it is nonzero),
overwrite creationTime; when its editedName passes the truthiness test at
line 252 (a string is truthy exactly when it is nonempty), overwrite
title. -/
def applyPubOverlay (metadata : FileMetadata)
    (pub : Option PubMagicMetadataData) : FileMetadata :=
  let metadata1 :=
    match pub with
    | some d =>
      match d.editedTime with
      | some t => if t ≠ 0 then { metadata with creationTime := t } else metadata
      | none => metadata
    | none => metadata
  match pub with
  | some d =>
    match d.editedName with
    | some n => if n ≠ "" then { metadata1 with title := n } else metadata1
    | none => metadata1
  | none => metadata1

/-- decryptEnteFile (render.ts lines 197-256): decrypt the file key with the
collection key, decrypt the core metadata with the file key, decrypt the
magic metadata payloads when their data is present, assemble the file, and
finally apply the public overlay (applyPubOverlay, lines 249-254). -/
def decryptEnteFile (worker : CryptoWorker) (encryptedFile : EncryptedEnteFile)
    (collectionKey : String) : EnteFile :=
  let fileKey := worker.decryptB64 encryptedFile.encryptedKey
    encryptedFile.keyDecryptionNonce collectionKey
  let fileMetadata := worker.decryptFileMetadata
    encryptedFile.metadata.encryptedData
    encryptedFile.metadata.decryptionHeader fileKey
  let fileMagicMetadata : Option String :=
    match encryptedFile.magicMetadata with
    | some mm =>
      match mm.data with
      | some d => some (worker.decryptMagicData d mm.header fileKey)
      | none => none
    | none => none
  let filePubMagicMetadata : Option PubMagicMetadataData :=
    match encryptedFile.pubMagicMetadata with
    | some pm =>
      match pm.data with
      | some d => some (worker.decryptPubMagicData d pm.header fileKey)
      | none => none
    | none => none
  { id := encryptedFile.id
    key := fileKey
    metadata := applyPubOverlay fileMetadata filePubMagicMetadata
    magicMetadata := fileMagicMetadata
    pubMagicMetadata := filePubMagicMetadata
    info := encryptedFile.info
    file := encryptedFile.file
    thumbnail := encryptedFile.thumbnail }

/-- The core metadata of a record before any overlay is applied: the result
of steps 1-2 of decryptEnteFile (render.ts lines 210-219), used by the
theorems to compare the final metadata against the original values. -/
def coreMetadata (worker : CryptoWorker) (encryptedFile : EncryptedEnteFile)
    (collectionKey : String) : FileMetadata :=
  let fileKey := worker.decryptB64 encryptedFile.encryptedKey
    encryptedFile.keyDecryptionNonce collectionKey
  worker.decryptFileMetadata encryptedFile.metadata.encryptedData
    encryptedFile.metadata.decryptionHeader fileKey

/-- isImageOrLivePhoto (render.ts lines 275-278): the file type is IMAGE or
LIVE_PHOTO. -/
def isImageOrLivePhoto (file : EnteFile) : Bool :=
  match file.metadata.fileType with
  | FILE_TYPE.IMAGE => true
  | FILE_TYPE.LIVE_PHOTO => true
  | _ => false

/-- isFileEligible (render.ts lines 258-273).  The helpers nameAndExtension,
isNonWebImageFileExtension and isHEICExtension live in packages outside this
module and are taken as parameters, so the theorems hold for every behaviour
of those helpers; nameAndExt returns the extension component, possibly
absent. -/
def isFileEligible (nameAndExt : String → Option String)
    (isNonWebImageFileExtension : Option String → Bool)
    (isHEICExtension : Option String → Bool) (file : EnteFile) : Bool :=
  if !isImageOrLivePhoto file then false
  else if file.info.fileSize > 100 * 1024 * 1024 then false
  else
    let extension := nameAndExt file.metadata.title
    if isNonWebImageFileExtension extension then isHEICExtension extension
    else true

/-- The still image extracted from a live photo bundle by decodeLivePhoto
(render.ts lines 311-314). -/
structure LivePhotoParts where
  imageFileName : String
  imageData : List Nat
deriving DecidableEq, Repr

/-- A blob carrying bytes and a content type, as built by
new Blob([blob], \x7b type: mimeType \x7d) at render.ts line 329. -/
structure TypedBlob where
  bytes : List Nat
  type : String
deriving DecidableEq, Repr

/-- The external collaborators of the content materializer (render.ts lines
299-364): the device capability check isChromecast, the filename helpers,
the HTTP transport (httpGet returns resp.data, or none when absent), the
crypto worker file decryption, the URL builders, the live photo decoder, the
MIME sniffer (taking the filename and the bytes) and the HEIC transcoder.
All are parameters: the theorems hold for every behaviour of them. -/
structure RenderEnv where
  isChromecast : Bool
  nameAndExt : String → Option String
  isHEICExtension : Option String → Bool
  httpGet : String → String → Option (List Nat)
  decryptFile : List Nat → String → String → List Nat
  getCastFileURL : Nat → String
  getCastThumbnailURL : Nat → String
  decodeLivePhoto : String → List Nat → LivePhotoParts
  detectMediaMIMEType : String → List Nat → Option String
  heicToJPEG : List Nat → List Nat

/-- downloadFile (render.ts lines 332-364): refuse non-image files, pick the
thumbnail or full file URL, fetch it with the cast token, fail when the
response carries no data, and decrypt the bytes with the matching
decryption header and the file key. -/
def downloadFile (env : RenderEnv) (castToken : String) (file : EnteFile)
    (shouldUseThumbnail : Bool) : Except String (List Nat) :=
  if !isImageOrLivePhoto file then
    Except.error "Can only cast images and live photos"
  else
    let url := if shouldUseThumbnail then env.getCastThumbnailURL file.id
      else env.getCastFileURL file.id
    match env.httpGet url castToken with
    | none => Except.error ("Failed to get " ++ url)
    | some data =>
      let header := if shouldUseThumbnail then file.thumbnail.decryptionHeader
        else file.file.decryptionHeader
      Except.ok (env.decryptFile data header file.key)

/-- The first half of renderableImageBlob (render.ts lines 300-317): decide
whether to use the thumbnail (Chromecast device and an HEIC extension),
download and decrypt the bytes, and split a live photo into its still image,
replacing both the working bytes and the filename.  Returns the filename and
bytes handed to the MIME sniffer. -/
def materializedInput (env : RenderEnv) (castToken : String) (file : EnteFile) :
    Except String (String × List Nat) :=
  let fileName := file.metadata.title
  let ext := env.nameAndExt fileName
  let shouldUseThumbnail := env.isChromecast && env.isHEICExtension ext
  match downloadFile env castToken file shouldUseThumbnail with
  | Except.error e => Except.error e
  | Except.ok blob =>
    if !shouldUseThumbnail && (file.metadata.fileType == FILE_TYPE.LIVE_PHOTO) then
      let parts := env.decodeLivePhoto fileName blob
      Except.ok (parts.imageFileName, parts.imageData)
    else
      Except.ok (fileName, blob)

/-- renderableImageBlob (render.ts lines 299-330): sniff the MIME type of
the materialized bytes, fail when sniffing yields nothing, transcode
HEIC/HEIF bytes to JPEG, and wrap the final bytes in a blob whose type field
is the sniffed mimeType variable, which is not updated by the transcode. -/
def renderableImageBlob (env : RenderEnv) (castToken : String)
    (file : EnteFile) : Except String TypedBlob :=
  match materializedInput env castToken file with
  | Except.error e => Except.error e
  | Except.ok r =>
    match env.detectMediaMIMEType r.1 r.2 with
    | none => Except.error ("Could not detect MIME type for file " ++ r.1)
    | some mimeType =>
      let blob := if mimeType == "image/heif" || mimeType == "image/heic"
        then env.heicToJPEG r.2 else r.2
      Except.ok { bytes := blob, type := mimeType }

/-- A concrete crypto worker whose decrypted public overlay defines
editedTime as 0 and editedName as the empty string, the JavaScript falsy
values, used to test the overlay application of decryptEnteFile. -/
def c6Worker : CryptoWorker where
  decryptB64 := fun _ _ _ => "filekey"
  decryptFileMetadata := fun _ _ _ => ⟨FILE_TYPE.IMAGE, "orig.jpg", 7⟩
  decryptMagicData := fun _ _ _ => "magic"
  decryptPubMagicData := fun _ _ _ => ⟨some 0, some "", none, none⟩

/-- A concrete crypto worker whose decrypted public overlay defines a
nonzero editedTime and a nonempty editedName. -/
def c6EditWorker : CryptoWorker where
  decryptB64 := fun _ _ _ => "filekey"
  decryptFileMetadata := fun _ _ _ => ⟨FILE_TYPE.IMAGE, "orig.jpg", 7⟩
  decryptMagicData := fun _ _ _ => "magic"
  decryptPubMagicData := fun _ _ _ => ⟨some 5, some "edited.jpg", none, none⟩

/-- A concrete encrypted file record carrying a public magic metadata blob. -/
def c6File : EncryptedEnteFile where
  id := 1
  encryptedKey := "ek"
  keyDecryptionNonce := "nonce"
  metadata := ⟨"md", "mdh"⟩
  magicMetadata := none
  pubMagicMetadata := some ⟨some "pmd", "pmh"⟩
  info := ⟨1000⟩
  file := ⟨"fh"⟩
  thumbnail := ⟨"th"⟩

/-- A concrete server response sequence for the diff fetcher: a first page
with one live and one deleted entry and hasMore set, a second page with one
live entry and hasMore unset, and a third page the fetcher never requests. -/
def c8Pages : List DiffPage :=
  [⟨[⟨false, 10, 1⟩, ⟨true, 5, 2⟩], true⟩,
   ⟨[⟨false, 3, 3⟩], false⟩,
   ⟨[⟨false, 99, 4⟩], true⟩]

/-- A concrete materializer environment: a non-Chromecast device, a fixed
download result, and a MIME sniffer that reports image/heic. -/
def c10Env : RenderEnv where
  isChromecast := false
  nameAndExt := fun _ => some "heic"
  isHEICExtension := fun e => e == some "heic"
  httpGet := fun _ _ => some [1, 2, 3]
  decryptFile := fun d _ _ => d
  getCastFileURL := fun _ => "fileURL"
  getCastThumbnailURL := fun _ => "thumbURL"
  decodeLivePhoto := fun n b => ⟨n, b⟩
  detectMediaMIMEType := fun _ _ => some "image/heic"
  heicToJPEG := fun _ => [7, 7]

/-- A concrete decrypted image file for the materializer. -/
def c10File : EnteFile where
  id := 3
  key := "k"
  metadata := ⟨FILE_TYPE.IMAGE, "a.heic", 0⟩
  magicMetadata := none
  pubMagicMetadata := none
  info := ⟨10⟩
  file := ⟨"fh"⟩
  thumbnail := ⟨"th"⟩

theorem runPass_nil (st : GenState) (hE : Bool) :
    runPass st hE [] = PassResult.ok st hE [] := rfl

theorem runPass_decryptFail (st : GenState) (hE : Bool) (e : GenError)
    (rest : List ItemStep) :
    runPass st hE (ItemStep.decryptFail e :: rest) = PassResult.err e [] := rfl

theorem runPass_ineligible (st : GenState) (hE : Bool) (rest : List ItemStep) :
    runPass st hE (ItemStep.ineligible :: rest) = runPass st hE rest := rfl

theorem runPass_success (st : GenState) (hE : Bool) (url : String)
    (rest : List ItemStep) :
    runPass st hE (ItemStep.success url :: rest) =
      match runPass ⟨0, pushURL st.previousURLs url⟩ true rest with
      | PassResult.ok st3 hE3 ys => PassResult.ok st3 hE3 (url :: ys)
      | PassResult.err e ys => PassResult.err e (url :: ys) := rfl

theorem runPass_failure_threshold (st : GenState) (hE : Bool) (e : GenError)
    (rest : List ItemStep) (h : st.consecutiveFailures = 2) :
    runPass st hE (ItemStep.failure e :: rest) = PassResult.err e [] := by
  simp [runPass, processItem, h]

theorem runPass_failure_auth (st : GenState) (hE : Bool) (e : GenError)
    (rest : List ItemStep) (h : e.is401 = true) :
    runPass st hE (ItemStep.failure e :: rest) = PassResult.err e [] := by
  by_cases h3 : st.consecutiveFailures + 1 = 3 <;>
    simp [runPass, processItem, h3, h]

theorem runPass_failure_skip (st : GenState) (hE : Bool) (e : GenError)
    (rest : List ItemStep) (h3 : ¬ st.consecutiveFailures = 2)
    (h401 : e.is401 = false) :
    runPass st hE (ItemStep.failure e :: rest) =
      runPass { st with consecutiveFailures := st.consecutiveFailures + 1 } hE rest := by
  simp [runPass, processItem, h3, h401]

theorem runGen_nil (st : GenState) : runGen st [] = RunOutcome.running st [] := rfl

theorem runGen_cons (st : GenState) (items : List ItemStep)
    (rest : List (List ItemStep)) :
    runGen st (items :: rest) =
      match runPass st false items with
      | PassResult.err e ys => RunOutcome.failed e [ys]
      | PassResult.ok st2 hE ys =>
        if hE then
          match runGen st2 rest with
          | RunOutcome.done tr => RunOutcome.done (ys :: tr)
          | RunOutcome.failed e tr => RunOutcome.failed e (ys :: tr)
          | RunOutcome.running s tr => RunOutcome.running s (ys :: tr)
        else RunOutcome.done [ys] := rfl

theorem runPass_haveEligible :
    ∀ (items : List ItemStep) (st : GenState) (hE : Bool) (st2 : GenState)
      (hE2 : Bool) (ys : List String),
      runPass st hE items = PassResult.ok st2 hE2 ys → hE2 = (hE || !ys.isEmpty)
  | [], st, hE, st2, hE2, ys => by
    intro h
    rw [runPass_nil] at h
    cases h
    simp
  | ItemStep.decryptFail e :: rest, st, hE, st2, hE2, ys => by
    intro h
    rw [runPass_decryptFail] at h
    cases h
  | ItemStep.ineligible :: rest, st, hE, st2, hE2, ys => by
    intro h
    rw [runPass_ineligible] at h
    exact runPass_haveEligible rest st hE st2 hE2 ys h
  | ItemStep.success url :: rest, st, hE, st2, hE2, ys => by
    intro h
    rw [runPass_success] at h
    rcases hr : runPass ⟨0, pushURL st.previousURLs url⟩ true rest with
      ⟨st3, hE3, ys2⟩ | ⟨e, ys2⟩
    · rw [hr] at h
      cases h
      have hh := runPass_haveEligible rest _ true st2 hE2 ys2 hr
      simp at hh
      simp [hh]
    · rw [hr] at h
      cases h
  | ItemStep.failure e :: rest, st, hE, st2, hE2, ys => by
    intro h
    by_cases h3 : st.consecutiveFailures = 2
    · rw [runPass_failure_threshold st hE e rest h3] at h
      cases h
    · cases h401 : e.is401 with
      | true =>
        rw [runPass_failure_auth st hE e rest h401] at h
        cases h
      | false =>
        rw [runPass_failure_skip st hE e rest h3 h401] at h
        exact runPass_haveEligible rest _ hE st2 hE2 ys h

theorem pushURL_length (urls : List String) (url : String)
    (h : urls.length ≤ 2) : (pushURL urls url).length ≤ 2 := by
  unfold pushURL
  by_cases h1 : urls.length > 1 <;> simp [h1] <;> omega

theorem processItem_length (st : GenState) (item : ItemStep) (st2 : GenState)
    (y : Option String) (h : processItem st item = Except.ok (st2, y))
    (hlen : st.previousURLs.length ≤ 2) : st2.previousURLs.length ≤ 2 := by
  cases item with
  | decryptFail e => simp [processItem] at h
  | ineligible =>
    simp [processItem] at h
    rw [← h.1]
    exact hlen
  | success url =>
    simp [processItem] at h
    rw [← h.1]
    exact pushURL_length st.previousURLs url hlen
  | failure e =>
    by_cases h3 : st.consecutiveFailures = 2
    · simp [processItem, h3] at h
    · cases h401 : e.is401 with
      | true => simp [processItem, h3, h401] at h
      | false =>
        simp [processItem, h3, h401] at h
        rw [← h.1]
        exact hlen

theorem passStates_length :
    ∀ (items : List ItemStep) (st : GenState), st.previousURLs.length ≤ 2 →
      ∀ s ∈ passStates st items, s.previousURLs.length ≤ 2
  | [], st, hlen, s => by
    intro hs
    simp [passStates] at hs
  | item :: rest, st, hlen, s => by
    intro hs
    rcases hp : processItem st item with e | ⟨st2, y⟩
    · simp [passStates, hp] at hs
    · have h2 := processItem_length st item st2 y hp hlen
      simp [passStates, hp] at hs
      rcases hs with hs | hs
      · rw [hs]
        exact h2
      · exact passStates_length rest st2 h2 s hs

theorem runPass_ok_length :
    ∀ (items : List ItemStep) (st : GenState) (hE : Bool) (st2 : GenState)
      (hE2 : Bool) (ys : List String),
      runPass st hE items = PassResult.ok st2 hE2 ys →
      st.previousURLs.length ≤ 2 → st2.previousURLs.length ≤ 2
  | [], st, hE, st2, hE2, ys => by
    intro h hlen
    rw [runPass_nil] at h
    cases h
    exact hlen
  | ItemStep.decryptFail e :: rest, st, hE, st2, hE2, ys => by
    intro h hlen
    rw [runPass_decryptFail] at h
    cases h
  | ItemStep.ineligible :: rest, st, hE, st2, hE2, ys => by
    intro h hlen
    rw [runPass_ineligible] at h
    exact runPass_ok_length rest st hE st2 hE2 ys h hlen
  | ItemStep.success url :: rest, st, hE, st2, hE2, ys => by
    intro h hlen
    rw [runPass_success] at h
    rcases hr : runPass ⟨0, pushURL st.previousURLs url⟩ true rest with
      ⟨st3, hE3, ys2⟩ | ⟨e, ys2⟩
    · rw [hr] at h
      cases h
      exact runPass_ok_length rest _ true st2 hE2 ys2 hr
        (pushURL_length st.previousURLs url hlen)
    · rw [hr] at h
      cases h
  | ItemStep.failure e :: rest, st, hE, st2, hE2, ys => by
    intro h hlen
    by_cases h3 : st.consecutiveFailures = 2
    · rw [runPass_failure_threshold st hE e rest h3] at h
      cases h
    · cases h401 : e.is401 with
      | true =>
        rw [runPass_failure_auth st hE e rest h401] at h
        cases h
      | false =>
        rw [runPass_failure_skip st hE e rest h3 h401] at h
        exact runPass_ok_length rest _ hE st2 hE2 ys h hlen

theorem runStates_length :
    ∀ (passes : List (List ItemStep)) (st : GenState), st.previousURLs.length ≤ 2 →
      ∀ s ∈ runStates st passes, s.previousURLs.length ≤ 2
  | [], st, hlen, s => by
    intro hs
    simp [runStates] at hs
  | items :: rest, st, hlen, s => by
    intro hs
    simp only [runStates, List.mem_append] at hs
    rcases hs with hs | hs
    · exact passStates_length items st hlen s hs
    · rcases hr : runPass st false items with ⟨st2, hE2, ys⟩ | ⟨e, ys⟩
      · rw [hr] at hs
        cases hE2 with
        | true =>
          simp at hs
          exact runStates_length rest st2
            (runPass_ok_length items st false st2 true ys hr hlen) s hs
        | false => simp at hs
      · rw [hr] at hs
        simp at hs

theorem runPass_benign :
    ∀ (items : List ItemStep) (st : GenState) (hE : Bool),
      (∀ i ∈ items, isBenignItem i = true) →
      ∃ st2 hE2 ys, runPass st hE items = PassResult.ok st2 hE2 ys ∧
        ((∃ i ∈ items, isSuccessItem i = true) → ys ≠ [])
  | [], st, hE, _ => ⟨st, hE, [], runPass_nil st hE, by simp⟩
  | ItemStep.decryptFail e :: rest, st, hE, hb => by
    have := hb (ItemStep.decryptFail e) (by simp)
    simp [isBenignItem] at this
  | ItemStep.ineligible :: rest, st, hE, hb => by
    have hb2 : ∀ i ∈ rest, isBenignItem i = true := fun i hi => hb i (by simp [hi])
    rcases runPass_benign rest st hE hb2 with ⟨st2, hE2, ys, hr, hy⟩
    refine ⟨st2, hE2, ys, by rw [runPass_ineligible]; exact hr, ?_⟩
    intro hex
    apply hy
    rcases hex with ⟨i, hi, hsi⟩
    rcases List.mem_cons.mp hi with hi2 | hi2
    · simp [hi2, isSuccessItem] at hsi
    · exact ⟨i, hi2, hsi⟩
  | ItemStep.success url :: rest, st, hE, hb => by
    have hb2 : ∀ i ∈ rest, isBenignItem i = true := fun i hi => hb i (by simp [hi])
    rcases runPass_benign rest ⟨0, pushURL st.previousURLs url⟩ true hb2 with
      ⟨st2, hE2, ys, hr, hy⟩
    refine ⟨st2, hE2, url :: ys, ?_, by simp⟩
    rw [runPass_success, hr]
  | ItemStep.failure e :: rest, st, hE, hb => by
    have := hb (ItemStep.failure e) (by simp)
    simp [isBenignItem] at this

theorem runGen_done_last :
    ∀ (passes : List (List ItemStep)) (st : GenState) (trace : List (List String)),
      runGen st passes = RunOutcome.done trace → ∃ tr, trace = tr ++ [[]]
  | [], st, trace => by
    intro h
    rw [runGen_nil] at h
    cases h
  | items :: rest, st, trace => by
    intro h
    rw [runGen_cons] at h
    rcases hr : runPass st false items with ⟨st2, hE2, ys⟩ | ⟨e, ys⟩
    · rw [hr] at h
      cases hE2 with
      | true =>
        simp only [if_true] at h
        rcases hg : runGen st2 rest with tr2 | ⟨e2, tr2⟩ | ⟨s2, tr2⟩ <;> rw [hg] at h
        · cases h
          rcases runGen_done_last rest st2 tr2 hg with ⟨tr3, htr⟩
          exact ⟨ys :: tr3, by rw [htr]; simp⟩
        · cases h
        · cases h
      | false =>
        simp only [if_false] at h
        cases h
        have hys := runPass_haveEligible items st false st2 false ys hr
        simp at hys
        rw [hys]
        exact ⟨[], rfl⟩
    · rw [hr] at h
      cases h

theorem runGen_sustained :
    ∀ (passes : List (List ItemStep)) (st : GenState),
      (∀ p ∈ passes, (∀ i ∈ p, isBenignItem i = true) ∧
        ∃ i ∈ p, isSuccessItem i = true) →
      ∃ st2 trace, runGen st passes = RunOutcome.running st2 trace
  | [], st, _ => ⟨st, [], runGen_nil st⟩
  | items :: rest, st, hp => by
    rcases hp items (by simp) with ⟨hb, hs⟩
    rcases runPass_benign items st false hb with ⟨st2, hE2, ys, hr, hy⟩
    have hys : ys ≠ [] := hy hs
    have hE2t := runPass_haveEligible items st false st2 hE2 ys hr
    have hE2true : hE2 = true := by
      rw [hE2t]
      simp [List.isEmpty_iff, hys]
    rcases runGen_sustained rest st2 (fun p hpp => hp p (by simp [hpp])) with
      ⟨st3, tr, hg⟩
    refine ⟨st3, ys :: tr, ?_⟩
    rw [runGen_cons, hr, hE2true]
    simp only [if_true]
    rw [hg]

theorem le_foldl_max :
    ∀ (l : List DiffEntry) (s : Nat),
      s ≤ l.foldl (fun m f => max m f.updationTime) s
  | [], s => le_refl s
  | f :: l, s =>
    le_trans (le_max_left s f.updationTime) (le_foldl_max l (max s f.updationTime))

theorem le_pageCursor (s : Nat) (page : DiffPage) : s ≤ pageCursor s page :=
  le_foldl_max page.diff s

theorem fetchGo_files :
    ∀ (pages : List DiffPage) (s : Nat),
      (fetchGo s pages).1 = ((pages.take (pagesTaken pages)).map livePage).flatten
  | [], s => by simp [fetchGo, pagesTaken]
  | page :: rest, s => by
    cases hm : page.hasMore with
    | true =>
      simp only [fetchGo, pagesTaken, hm, if_true]
      rw [fetchGo_files rest (pageCursor s page)]
      simp [Nat.add_comm 1 (pagesTaken rest)]
    | false =>
      simp [fetchGo, pagesTaken, hm]

theorem fetchGo_cursor_length :
    ∀ (pages : List DiffPage) (s : Nat), (fetchGo s pages).2.length = pagesTaken pages
  | [], s => by simp [fetchGo, pagesTaken]
  | page :: rest, s => by
    cases hm : page.hasMore with
    | true =>
      simp only [fetchGo, pagesTaken, hm, if_true]
      simp [fetchGo_cursor_length rest (pageCursor s page), Nat.add_comm]
    | false =>
      simp [fetchGo, pagesTaken, hm]

theorem fetchGo_cursor_chain :
    ∀ (pages : List DiffPage) (s : Nat),
      List.Chain' (· ≤ ·) (s :: (fetchGo s pages).2)
  | [], s => by simp [fetchGo]
  | page :: rest, s => by
    cases hm : page.hasMore with
    | true =>
      simp only [fetchGo, hm, if_true]
      exact List.chain'_cons.mpr
        ⟨le_pageCursor s page, fetchGo_cursor_chain rest (pageCursor s page)⟩
    | false =>
      simp [fetchGo, hm, le_pageCursor s page]

theorem fetchGo_cursor_get :
    ∀ (pages : List DiffPage) (s : Nat) (k : Nat), k < pagesTaken pages →
      (fetchGo s pages).2.get? k = some ((pages.take (k + 1)).foldl pageCursor s)
  | [], s, k => by simp [pagesTaken]
  | page :: rest, s, k => by
    intro hk
    cases hm : page.hasMore with
    | true =>
      cases k with
      | zero => simp [fetchGo, hm, pageCursor]
      | succ k2 =>
        simp only [fetchGo, hm, if_true]
        have hk2 : k2 < pagesTaken rest := by
          simp [pagesTaken, hm] at hk
          omega
        simp only [List.get?_cons_succ, List.take_succ_cons, List.foldl_cons]
        exact fetchGo_cursor_get rest (pageCursor s page) k2 hk2
    | false =>
      have hk0 : k = 0 := by
        simp [pagesTaken, hm] at hk
        omega
      subst hk0
      simp [fetchGo, hm, pageCursor]

theorem pagesTaken_eq :
    ∀ pages : List DiffPage,
      pagesTaken pages =
        min pages.length ((pages.takeWhile (fun p => p.hasMore)).length + 1)
  | [] => by simp [pagesTaken]
  | page :: rest => by
    cases hm : page.hasMore with
    | true =>
      have ih := pagesTaken_eq rest
      simp only [pagesTaken, hm, if_true, List.takeWhile, List.length_cons]
      simp [List.takeWhile_cons, hm, Nat.succ_min_succ]
      omega
    | false =>
      simp [pagesTaken, hm, List.takeWhile_cons]

theorem runPass_three_failures (urls : List String) (hE : Bool)
    (e1 e2 e3 : GenError) (rest : List ItemStep) (h1 : e1.is401 = false)
    (h2 : e2.is401 = false) :
    runPass ⟨0, urls⟩ hE
      (ItemStep.failure e1 :: ItemStep.failure e2 :: ItemStep.failure e3 :: rest)
      = PassResult.err e3 [] := by
  simp [runPass, processItem, h1, h2]

theorem decryptEnteFile_pub (worker : CryptoWorker)
    (encryptedFile : EncryptedEnteFile) (collectionKey : String) :
    (decryptEnteFile worker encryptedFile collectionKey).metadata
      = applyPubOverlay (coreMetadata worker encryptedFile collectionKey)
          ((decryptEnteFile worker encryptedFile collectionKey).pubMagicMetadata) := rfl

theorem applyPubOverlay_none (m : FileMetadata) :
    applyPubOverlay m none = m := rfl

theorem applyPubOverlay_creationTime (m : FileMetadata)
    (d : PubMagicMetadataData) :
    (applyPubOverlay m (some d)).creationTime =
      match d.editedTime with
      | some t => if t ≠ 0 then t else m.creationTime
      | none => m.creationTime := by
  rcases ht : d.editedTime with _ | t <;>
    rcases hn : d.editedName with _ | n <;>
      simp only [applyPubOverlay, ht, hn] <;> (try split) <;> (try split) <;> rfl

theorem applyPubOverlay_title (m : FileMetadata) (d : PubMagicMetadataData) :
    (applyPubOverlay m (some d)).title =
      match d.editedName with
      | some n => if n ≠ "" then n else m.title
      | none => m.title := by
  rcases ht : d.editedTime with _ | t <;>
    rcases hn : d.editedName with _ | n <;>
      simp only [applyPubOverlay, ht, hn] <;> (try split) <;> (try split) <;> rfl

/-- C1, counterexample.  The claim says a decryption failure is caught,
skipped and counted like a materialization failure.  On the code it is not:
with a single pass whose first item fails decryption (with an ordinary,
non-401 error) and whose second item would materialize successfully, the
generator rethrows the decryption error at once, yields nothing and never
reaches the second item, instead of skipping and continuing as the claim
predicts. -/
theorem spec_c1_counterexample :
    runGen initState
        [[ItemStep.decryptFail ⟨false, 500, 7⟩, ItemStep.success "u"]]
      = RunOutcome.failed ⟨false, 500, 7⟩ [[]] ∧
    runGen initState
        [[ItemStep.decryptFail ⟨false, 500, 7⟩, ItemStep.success "u"]]
      ≠ RunOutcome.running ⟨0, ["u"]⟩ [["u"]] := by
  exact ⟨by decide, by decide⟩

/-- C1, amended.  A failure of decryptEnteFile is not handled by the
per-item escalation policy at all: render.ts line 106 sits outside the try
block, so the error propagates immediately, terminating the generator
without incrementing the consecutive-failure counter, without skipping to
the next item, and regardless of the current counter value. -/
theorem spec_c1_amended (st : GenState) (hE : Bool) (e : GenError)
    (rest : List ItemStep) (passes : List (List ItemStep)) :
    runPass st hE (ItemStep.decryptFail e :: rest) = PassResult.err e [] ∧
    runGen st ((ItemStep.decryptFail e :: rest) :: passes)
      = RunOutcome.failed e [[]] := by
  refine ⟨runPass_decryptFail st hE e rest, ?_⟩
  rw [runGen_cons, runPass_decryptFail]

/-- C2.  Within one run: (1) immediately after every successful
materialization the consecutive-failure counter equals 0; (2) from a state
with counter 0 (the state at run start and immediately after any success),
three consecutive recoverable non-auth per-item failures with no intervening
success make the pass rethrow the third error with nothing yielded, before
any later item is attempted; (3) at the run level this terminates the
generator with that third error. -/
theorem spec_c2 :
    (∀ (st st2 : GenState) (url : String) (y : Option String),
      processItem st (ItemStep.success url) = Except.ok (st2, y) →
      st2.consecutiveFailures = 0) ∧
    (∀ (urls : List String) (hE : Bool) (e1 e2 e3 : GenError)
       (rest : List ItemStep),
      e1.is401 = false → e2.is401 = false → e3.is401 = false →
      runPass ⟨0, urls⟩ hE
          (ItemStep.failure e1 :: ItemStep.failure e2 ::
            ItemStep.failure e3 :: rest)
        = PassResult.err e3 []) ∧
    (∀ (urls : List String) (e1 e2 e3 : GenError) (rest : List ItemStep)
       (passes : List (List ItemStep)),
      e1.is401 = false → e2.is401 = false → e3.is401 = false →
      runGen ⟨0, urls⟩
          ((ItemStep.failure e1 :: ItemStep.failure e2 ::
            ItemStep.failure e3 :: rest) :: passes)
        = RunOutcome.failed e3 [[]]) := by
  refine ⟨?_, ?_, ?_⟩
  · intro st st2 url y h
    simp only [processItem] at h
    cases h
    rfl
  · intro urls hE e1 e2 e3 rest h1 h2 _
    exact runPass_three_failures urls hE e1 e2 e3 rest h1 h2
  · intro urls e1 e2 e3 rest passes h1 h2 _
    rw [runGen_cons, runPass_three_failures urls false e1 e2 e3 rest h1 h2]

/-- C2, witness: after a success the counter reads 0 even from a state with
two prior failures; three consecutive non-auth failures from a fresh state
end the run with the third error before the fourth item (a success) is
attempted. -/
theorem spec_c2_witness :
    (⟨0, ["u"]⟩ : GenState).consecutiveFailures = 0 ∧
    runPass ⟨0, []⟩ false
        (ItemStep.failure ⟨false, 500, 1⟩ :: ItemStep.failure ⟨false, 502, 2⟩ ::
          ItemStep.failure ⟨false, 503, 3⟩ :: [ItemStep.success "a"])
      = PassResult.err ⟨false, 503, 3⟩ [] ∧
    runGen ⟨0, []⟩
        [[ItemStep.failure ⟨false, 500, 1⟩, ItemStep.failure ⟨false, 502, 2⟩,
          ItemStep.failure ⟨false, 503, 3⟩, ItemStep.success "a"]]
      = RunOutcome.failed ⟨false, 503, 3⟩ [[]] :=
  ⟨spec_c2.1 ⟨2, []⟩ ⟨0, ["u"]⟩ "u" (some "u") rfl,
   spec_c2.2.1 [] false ⟨false, 500, 1⟩ ⟨false, 502, 2⟩ ⟨false, 503, 3⟩
     [ItemStep.success "a"] (by decide) (by decide) (by decide),
   spec_c2.2.2 [] ⟨false, 500, 1⟩ ⟨false, 502, 2⟩ ⟨false, 503, 3⟩
     [ItemStep.success "a"] [] (by decide) (by decide) (by decide)⟩

/-- C3.  An item whose materialization fails with an ApiError carrying HTTP
status 401 makes the generator rethrow that very error at once, with nothing
further yielded, from every state, hence regardless of the current
consecutive-failure counter value. -/
theorem spec_c3 (st : GenState) (hE : Bool) (e : GenError)
    (rest : List ItemStep) (passes : List (List ItemStep))
    (hapi : e.isApiError = true) (hcode : e.httpStatusCode = 401) :
    runPass st hE (ItemStep.failure e :: rest) = PassResult.err e [] ∧
    runGen st ((ItemStep.failure e :: rest) :: passes)
      = RunOutcome.failed e [[]] := by
  have h401 : e.is401 = true := by
    simp [GenError.is401, hapi, hcode]
  refine ⟨runPass_failure_auth st hE e rest h401, ?_⟩
  rw [runGen_cons, runPass_failure_auth st false e rest h401]

/-- C3, witness: a 401 failure terminates the run both from a counter value
of 0 and from a counter value of 1. -/
theorem spec_c3_witness :
    runPass ⟨0, []⟩ false [ItemStep.failure ⟨true, 401, 1⟩]
      = PassResult.err ⟨true, 401, 1⟩ [] ∧
    runPass ⟨1, ["a"]⟩ true [ItemStep.failure ⟨true, 401, 2⟩, ItemStep.success "b"]
      = PassResult.err ⟨true, 401, 2⟩ [] :=
  ⟨(spec_c3 ⟨0, []⟩ false ⟨true, 401, 1⟩ [] [] (by decide) (by decide)).1,
   (spec_c3 ⟨1, ["a"]⟩ true ⟨true, 401, 2⟩ [ItemStep.success "b"] []
     (by decide) (by decide)).1⟩

/-- C4.  Termination behaviour of the outer loop, with a completed pass
yielding zero eligible items formalized as runPass returning ok with an
empty yield list: (1) whenever the generator returns normally (reaches
DONE), the last pass it processed yielded zero items; (2) whenever the next
pass completes with zero yields, the generator returns normally right
there; (3) for every finite schedule in which each pass consists of
successfully materializing and filtered-out items with at least one success,
the generator is still looping after the whole schedule, for schedules of
every length, so it never reaches DONE. -/
theorem spec_c4 :
    (∀ (st : GenState) (passes : List (List ItemStep))
       (trace : List (List String)),
      runGen st passes = RunOutcome.done trace → ∃ tr, trace = tr ++ [[]]) ∧
    (∀ (st st2 : GenState) (hE2 : Bool) (items : List ItemStep)
       (rest : List (List ItemStep)),
      runPass st false items = PassResult.ok st2 hE2 [] →
      runGen st (items :: rest) = RunOutcome.done [[]]) ∧
    (∀ (passes : List (List ItemStep)) (st : GenState),
      (∀ p ∈ passes, (∀ i ∈ p, isBenignItem i = true) ∧
        ∃ i ∈ p, isSuccessItem i = true) →
      ∃ st2 trace, runGen st passes = RunOutcome.running st2 trace) := by
  refine ⟨fun st passes trace h => runGen_done_last passes st trace h, ?_,
    fun passes st h => runGen_sustained passes st h⟩
  intro st st2 hE2 items rest h
  have hE2f : hE2 = false := by
    have hh := runPass_haveEligible items st false st2 hE2 [] h
    simpa using hh
  rw [runGen_cons, h, hE2f]
  rfl

/-- C4, witness: a run that ends at DONE has an empty final pass trace; a
pass completing with zero yields ends the run at DONE; a schedule of two
all-successful passes leaves the generator still running. -/
theorem spec_c4_witness :
    (∃ tr, ([[]] : List (List String)) = tr ++ [[]]) ∧
    runGen initState [[ItemStep.ineligible]] = RunOutcome.done [[]] ∧
    ∃ st2 trace,
      runGen initState [[ItemStep.success "a"], [ItemStep.ineligible, ItemStep.success "b"]]
        = RunOutcome.running st2 trace :=
  ⟨spec_c4.1 initState [[ItemStep.ineligible]] [[]] (by decide),
   spec_c4.2.1 initState ⟨0, []⟩ false [ItemStep.ineligible] [] (by decide),
   spec_c4.2.2 [[ItemStep.success "a"], [ItemStep.ineligible, ItemStep.success "b"]]
     initState (by decide)⟩

/-- C5.  The playback window invariant: every state observable during any
run started from the initial state keeps at most 2 outstanding URLs, and
when a new URL is pushed while 2 are outstanding, the oldest one (the front
of previousURLs) is dropped first, keeping the window at exactly 2. -/
theorem spec_c5 :
    (∀ (passes : List (List ItemStep)) (s : GenState),
      s ∈ runStates initState passes → s.previousURLs.length ≤ 2) ∧
    (∀ (urls : List String) (url : String), urls.length = 2 →
      pushURL urls url = urls.tail ++ [url] ∧ (pushURL urls url).length = 2) := by
  constructor
  · intro passes s hs
    exact runStates_length passes initState (by simp [initState]) s hs
  · intro urls url h
    constructor
    · simp [pushURL, h]
    · simp [pushURL, h]

/-- C5, witness: during a pass that materializes three items the window
state after the third push still holds 2 URLs, and pushing onto a full
window of 2 drops the front element first. -/
theorem spec_c5_witness :
    (⟨0, ["b", "c"]⟩ : GenState).previousURLs.length ≤ 2 ∧
    (pushURL ["a", "b"] "c" = ["a", "b"].tail ++ ["c"] ∧
      (pushURL ["a", "b"] "c").length = 2) :=
  ⟨spec_c5.1 [[ItemStep.success "a", ItemStep.success "b", ItemStep.success "c"]]
     ⟨0, ["b", "c"]⟩ (by decide),
   spec_c5.2 ["a", "b"] "c" (by decide)⟩

/-- C6, counterexample.  The claim says any record whose decrypted public
overlay defines editedTime or editedName gets those values.  On the code the
overlay checks are JavaScript truthiness tests: with an overlay defining
editedTime as 0 and editedName as the empty string, the decrypted file keeps
the core metadata values 7 and orig.jpg instead of the defined overlay
values. -/
theorem spec_c6_counterexample :
    (decryptEnteFile c6Worker c6File "ck").pubMagicMetadata
      = some ⟨some 0, some "", none, none⟩ ∧
    (decryptEnteFile c6Worker c6File "ck").metadata.creationTime = 7 ∧
    (decryptEnteFile c6Worker c6File "ck").metadata.title = "orig.jpg" ∧
    (7 : Int) ≠ 0 ∧ "orig.jpg" ≠ "" :=
  ⟨rfl, rfl, rfl, by decide, by decide⟩

/-- C6, amended.  The overlay supersedes the core metadata exactly when its
fields pass the JavaScript truthiness test: a defined nonzero editedTime
becomes creationTime, a defined nonempty editedName becomes title; an
absent, zero or empty overlay field leaves the corresponding core metadata
value in place, and a record without a decrypted overlay keeps the core
metadata entirely. -/
theorem spec_c6_amended (worker : CryptoWorker)
    (encryptedFile : EncryptedEnteFile) (collectionKey : String) :
    ((decryptEnteFile worker encryptedFile collectionKey).pubMagicMetadata = none →
      (decryptEnteFile worker encryptedFile collectionKey).metadata
        = coreMetadata worker encryptedFile collectionKey) ∧
    (∀ d : PubMagicMetadataData,
      (decryptEnteFile worker encryptedFile collectionKey).pubMagicMetadata = some d →
      (∀ t : Int, d.editedTime = some t → t ≠ 0 →
        (decryptEnteFile worker encryptedFile collectionKey).metadata.creationTime = t) ∧
      (∀ n : String, d.editedName = some n → n ≠ "" →
        (decryptEnteFile worker encryptedFile collectionKey).metadata.title = n) ∧
      (d.editedTime = none ∨ d.editedTime = some 0 →
        (decryptEnteFile worker encryptedFile collectionKey).metadata.creationTime
          = (coreMetadata worker encryptedFile collectionKey).creationTime) ∧
      (d.editedName = none ∨ d.editedName = some "" →
        (decryptEnteFile worker encryptedFile collectionKey).metadata.title
          = (coreMetadata worker encryptedFile collectionKey).title)) := by
  constructor
  · intro hnone
    rw [decryptEnteFile_pub, hnone, applyPubOverlay_none]
  · intro d hd
    refine ⟨?_, ?_, ?_, ?_⟩
    · intro t ht h0
      rw [decryptEnteFile_pub, hd, applyPubOverlay_creationTime, ht]
      simp [h0]
    · intro n hn h0
      rw [decryptEnteFile_pub, hd, applyPubOverlay_title, hn]
      simp [h0]
    · intro hcase
      rw [decryptEnteFile_pub, hd, applyPubOverlay_creationTime]
      rcases hcase with hc | hc <;> simp [hc]
    · intro hcase
      rw [decryptEnteFile_pub, hd, applyPubOverlay_title]
      rcases hcase with hc | hc <;> simp [hc]

/-- C6, witness: a record whose overlay defines editedTime 5 and editedName
edited.jpg decrypts to a file showing exactly those values. -/
theorem spec_c6_witness :
    (decryptEnteFile c6EditWorker c6File "ck").metadata.creationTime = 5 ∧
    (decryptEnteFile c6EditWorker c6File "ck").metadata.title = "edited.jpg" :=
  ⟨((spec_c6_amended c6EditWorker c6File "ck").2
      ⟨some 5, some "edited.jpg", none, none⟩ rfl).1 5 rfl (by decide),
   ((spec_c6_amended c6EditWorker c6File "ck").2
      ⟨some 5, some "edited.jpg", none, none⟩ rfl).2.1 "edited.jpg" rfl (by decide)⟩

/-- C7.  The eligibility filter, for every behaviour of the external
helpers nameAndExt, isNonWebImageFileExtension and isHEICExtension and for
every file: a file whose kind is neither image nor live photo is rejected;
a file whose declared size exceeds 100 MiB is rejected; a file passing both
checks whose title extension denotes a non-web image format is eligible
exactly when that extension is a HEIC/HEIF one; and a file passing both
checks with a web-renderable extension is eligible. -/
theorem spec_c7 (nameAndExt : String → Option String)
    (isNonWebImageFileExtension : Option String → Bool)
    (isHEICExtension : Option String → Bool) (file : EnteFile) :
    (isImageOrLivePhoto file = false →
      isFileEligible nameAndExt isNonWebImageFileExtension isHEICExtension file
        = false) ∧
    (file.info.fileSize > 100 * 1024 * 1024 →
      isFileEligible nameAndExt isNonWebImageFileExtension isHEICExtension file
        = false) ∧
    (isImageOrLivePhoto file = true → file.info.fileSize ≤ 100 * 1024 * 1024 →
      isNonWebImageFileExtension (nameAndExt file.metadata.title) = true →
      isFileEligible nameAndExt isNonWebImageFileExtension isHEICExtension file
        = isHEICExtension (nameAndExt file.metadata.title)) ∧
    (isImageOrLivePhoto file = true → file.info.fileSize ≤ 100 * 1024 * 1024 →
      isNonWebImageFileExtension (nameAndExt file.metadata.title) = false →
      isFileEligible nameAndExt isNonWebImageFileExtension isHEICExtension file
        = true) := by
  refine ⟨?_, ?_, ?_, ?_⟩
  · intro h
    simp [isFileEligible, h]
  · intro h
    by_cases hk : isImageOrLivePhoto file <;> simp [isFileEligible, hk, h]
  · intro hk hs hw
    have hs2 : ¬ file.info.fileSize > 100 * 1024 * 1024 := by omega
    simp [isFileEligible, hk, hs2, hw]
  · intro hk hs hw
    have hs2 : ¬ file.info.fileSize > 100 * 1024 * 1024 := by omega
    simp [isFileEligible, hk, hs2, hw]

/-- C7, witness: a video file and an oversized image are rejected; an image
with a non-web HEIC extension is eligible exactly per the HEIC check; an
image with a web extension is eligible. -/
theorem spec_c7_witness :
    isFileEligible (fun _ => some "mp4") (fun _ => false) (fun _ => false)
      ⟨1, "k", ⟨FILE_TYPE.VIDEO, "a.mp4", 0⟩, none, none, ⟨10⟩, ⟨"f"⟩, ⟨"t"⟩⟩
      = false ∧
    isFileEligible (fun _ => some "jpg") (fun _ => false) (fun _ => false)
      ⟨2, "k", ⟨FILE_TYPE.IMAGE, "a.jpg", 0⟩, none, none, ⟨104857601⟩, ⟨"f"⟩, ⟨"t"⟩⟩
      = false ∧
    isFileEligible (fun _ => some "heic") (fun e => e == some "heic")
      (fun e => e == some "heic")
      ⟨3, "k", ⟨FILE_TYPE.IMAGE, "a.heic", 0⟩, none, none, ⟨10⟩, ⟨"f"⟩, ⟨"t"⟩⟩
      = ((fun e => e == some "heic") ((fun _ : String => some "heic") "a.heic")) ∧
    isFileEligible (fun _ => some "jpg") (fun _ => false) (fun _ => false)
      ⟨4, "k", ⟨FILE_TYPE.IMAGE, "a.jpg", 0⟩, none, none, ⟨10⟩, ⟨"f"⟩, ⟨"t"⟩⟩
      = true :=
  ⟨(spec_c7 (fun _ => some "mp4") (fun _ => false) (fun _ => false)
      ⟨1, "k", ⟨FILE_TYPE.VIDEO, "a.mp4", 0⟩, none, none, ⟨10⟩, ⟨"f"⟩, ⟨"t"⟩⟩).1
      (by decide),
   (spec_c7 (fun _ => some "jpg") (fun _ => false) (fun _ => false)
      ⟨2, "k", ⟨FILE_TYPE.IMAGE, "a.jpg", 0⟩, none, none, ⟨104857601⟩, ⟨"f"⟩, ⟨"t"⟩⟩).2.1
      (by decide),
   (spec_c7 (fun _ => some "heic") (fun e => e == some "heic")
      (fun e => e == some "heic")
      ⟨3, "k", ⟨FILE_TYPE.IMAGE, "a.heic", 0⟩, none, none, ⟨10⟩, ⟨"f"⟩, ⟨"t"⟩⟩).2.2.1
      (by decide) (by decide) (by decide),
   (spec_c7 (fun _ => some "jpg") (fun _ => false) (fun _ => false)
      ⟨4, "k", ⟨FILE_TYPE.IMAGE, "a.jpg", 0⟩, none, none, ⟨10⟩, ⟨"f"⟩, ⟨"t"⟩⟩).2.2.2
      (by decide) (by decide) (by decide)⟩

/-- C8.  For every sequence of diff pages the server returns: the fetch,
whose cursor starts at 0 by definition, returns the in-page-order
concatenation of exactly the non-deleted entries over the pages it
processes; the cursor trace starting at 0 never decreases; after the k-th
processed page the cursor equals the fold of pageCursor (the running
maximum of updationTime) over the first k+1 pages seeded with 0; and the
number of processed pages is exactly one page beyond the run of hasMore
pages (capped by the number of available pages), so paging continues
exactly as long as the server signals hasMore. -/
theorem spec_c8 (pages : List DiffPage) :
    getEncryptedCollectionFiles pages
      = ((pages.take (pagesTaken pages)).map livePage).flatten ∧
    List.Chain' (· ≤ ·) (0 :: (fetchGo 0 pages).2) ∧
    (∀ k, k < pagesTaken pages →
      (fetchGo 0 pages).2.get? k
        = some ((pages.take (k + 1)).foldl pageCursor 0)) ∧
    pagesTaken pages
      = min pages.length ((pages.takeWhile (fun p => p.hasMore)).length + 1) :=
  ⟨fetchGo_files pages 0, fetchGo_cursor_chain pages 0,
   fun k hk => fetchGo_cursor_get pages 0 k hk, pagesTaken_eq pages⟩

/-- C8, witness: on a concrete three-page response the fetcher processes two
pages, returns the two live entries in order, and its cursor after the
second page is the running maximum 10. -/
theorem spec_c8_witness :
    getEncryptedCollectionFiles c8Pages
      = ((c8Pages.take (pagesTaken c8Pages)).map livePage).flatten ∧
    List.Chain' (· ≤ ·) (0 :: (fetchGo 0 c8Pages).2) ∧
    (fetchGo 0 c8Pages).2.get? 1
      = some ((c8Pages.take 2).foldl pageCursor 0) ∧
    pagesTaken c8Pages
      = min c8Pages.length ((c8Pages.takeWhile (fun p => p.hasMore)).length + 1) :=
  ⟨(spec_c8 c8Pages).1, (spec_c8 c8Pages).2.1,
   (spec_c8 c8Pages).2.2.1 1 (by decide), (spec_c8 c8Pages).2.2.2⟩

/-- C9, counterexample.  The claim says the wait before a yield equals the
remainder of the 12 second duration minus the elapsed time, waiting 0 only
when the elapsed time meets or exceeds 12 seconds.  On the code, when the
elapsed time is exactly 0 milliseconds (0 is below the duration, so the
claimed wait is the full 12000 ms), the guard elapsedTime > 0 fails and the
generator waits 0 instead. -/
theorem spec_c9_counterexample :
    waitDuration 0 = 0 ∧ (0 : Int) < slideDuration ∧
    slideDuration - 0 = 12000 ∧ waitDuration 0 ≠ slideDuration - 0 :=
  ⟨by decide, by decide, by decide, by decide⟩

/-- C9, amended.  The wait before a yield is never negative; it equals
slideDuration minus the elapsed time exactly when the elapsed time lies
strictly between 0 and slideDuration, and is 0 otherwise (elapsed time at
most 0, or at least slideDuration); the very first yield of a run, whose
lastYieldTime is regressed by slideDuration minus 2500 ms, waits at most
2500 ms. -/
theorem spec_c9_amended :
    (∀ elapsedTime : Int, 0 ≤ waitDuration elapsedTime) ∧
    (∀ elapsedTime : Int, 0 < elapsedTime → elapsedTime < slideDuration →
      waitDuration elapsedTime = slideDuration - elapsedTime) ∧
    (∀ elapsedTime : Int, elapsedTime ≤ 0 ∨ slideDuration ≤ elapsedTime →
      waitDuration elapsedTime = 0) ∧
    (∀ startTime now : Int, startTime ≤ now →
      waitDuration (now - initialLastYieldTime startTime) ≤ 2500) := by
  refine ⟨?_, ?_, ?_, ?_⟩
  · intro elapsedTime
    simp only [waitDuration, slideDuration]
    split <;> omega
  · intro elapsedTime h1 h2
    simp only [waitDuration]
    rw [if_pos ⟨h1, h2⟩]
  · intro elapsedTime h
    simp only [waitDuration, slideDuration] at h ⊢
    split <;> omega
  · intro startTime now h
    simp only [waitDuration, initialLastYieldTime, slideDuration] at h ⊢
    split <;> omega

/-- C9, witness: the wait is nonnegative at 700 ms elapsed, equals the
7000 ms remainder at 5000 ms elapsed, is 0 at 20000 ms and at -3 ms
elapsed, and the first yield of a run started at time 0 and reached at time
100 waits at most 2500 ms. -/
theorem spec_c9_witness :
    (0 : Int) ≤ waitDuration 700 ∧
    waitDuration 5000 = slideDuration - 5000 ∧
    waitDuration 20000 = 0 ∧
    waitDuration (-3) = 0 ∧
    waitDuration (100 - initialLastYieldTime 0) ≤ 2500 :=
  ⟨spec_c9_amended.1 700,
   spec_c9_amended.2.1 5000 (by decide) (by decide),
   spec_c9_amended.2.2.1 20000 (by decide),
   spec_c9_amended.2.2.1 (-3) (by decide),
   spec_c9_amended.2.2.2 0 100 (by decide)⟩

/-- C10.  When the sniffed MIME type of the materialized bytes (downloaded
and, for live photos, split) is image/heic or image/heif, the blob the
materializer returns carries the transcoded JPEG bytes but keeps the
originally sniffed HEIC/HEIF content type, which is not image/jpeg. -/
theorem spec_c10 (env : RenderEnv) (castToken : String) (file : EnteFile)
    (fileName : String) (bytes : List Nat) (mimeType : String)
    (hmat : materializedInput env castToken file = Except.ok (fileName, bytes))
    (hsniff : env.detectMediaMIMEType fileName bytes = some mimeType)
    (hheic : mimeType = "image/heic" ∨ mimeType = "image/heif") :
    renderableImageBlob env castToken file
      = Except.ok ⟨env.heicToJPEG bytes, mimeType⟩ ∧
    mimeType ≠ "image/jpeg" := by
  constructor
  · rcases hheic with h | h <;> subst h <;>
      simp [renderableImageBlob, hmat, hsniff]
  · rcases hheic with h | h <;> subst h <;> decide

/-- C10, witness: on a concrete environment sniffing image/heic, the
returned blob holds the transcoded bytes with content type image/heic. -/
theorem spec_c10_witness :
    renderableImageBlob c10Env "tok" c10File
      = Except.ok ⟨c10Env.heicToJPEG [1, 2, 3], "image/heic"⟩ ∧
    "image/heic" ≠ "image/jpeg" :=
  spec_c10 c10Env "tok" c10File "a.heic" [1, 2, 3] "image/heic" rfl rfl
    (Or.inl rfl)

end Render
